import Mathlib

/-!
Shallow embedding of the decomposition / iosystem entry points of
`src/clib/pioc.c` (ParallelIO), together with proofs about them.

Machine integers (`int`, `PIO_Offset`) are modelled as `Int`; array
arguments as `List Int` (a `NULL` pointer as `none` of an `Option`).
MPI collectives are modelled on a single rank: sends and broadcasts
from this rank are no-ops, and values received from another rank are
supplied as explicit oracle parameters.  Calls into translation units
that are not part of the two source files (`malloc`, `qsort`,
`run_unique_check`, `subset_rearrange_create`, `CalcStartandCount`,
`compute_maxIObuffersize`, `box_rearrange_create`,
`pio_add_to_iodesc_list`, `pio_get_iosystem_from_id`,
`pio_get_iodesc_from_id`) are likewise oracle parameters: the model
records exactly which data `pioc.c` hands to them and what it does with
each possible outcome.
-/

namespace PIO

/-! Error codes and constants from `pio.h` (the `NC_` values are the
netCDF standard values the macros expand to). -/

def PIO_NOERR : Int := 0
def PIO_EBADID : Int := -33
def PIO_EINVAL : Int := -36
def PIO_ENOMEM : Int := -61
def PIO_EBADREARR : Int := -502
def PIO_INTERNAL_ERROR : Int := -51
def PIO_BCAST_ERROR : Int := -52
def PIO_RETURN_ERROR : Int := -53
def PIO_DEFAULT : Int := -1
def PIO_REARR_BOX : Int := 1
def PIO_REARR_SUBSET : Int := 2

/-- Decidable equality of `Except` results, used to evaluate the models
on concrete inputs. -/
instance exceptDecidableEq {ε α : Type} [DecidableEq ε] [DecidableEq α] :
    DecidableEq (Except ε α) := fun x y =>
  match x, y with
  | .ok a, .ok b =>
    if h : a = b then isTrue (by rw [h])
    else isFalse (fun hc => h (by injection hc))
  | .error a, .error b =>
    if h : a = b then isTrue (by rw [h])
    else isFalse (fun hc => h (by injection hc))
  | .ok _, .error _ => isFalse (fun hc => Except.noConfusion hc)
  | .error _, .ok _ => isFalse (fun hc => Except.noConfusion hc)

/-- Initial value of the global counter `pio_next_ioid` (pioc.c line 77). -/
def pio_next_ioid_init : Int := 512

/-- Initial value of the global `default_error_handler` (pioc.c line 70). -/
def default_error_handler_init : Int := PIO_INTERNAL_ERROR

/-! The sort machinery of `PIOc_InitDecomp` (pioc.c lines 80-84, 448-459,
603-644).  `struct sort_map` pairs an original index with a map value;
the index (a C `int` holding a loop counter `0 <= m < maplen`) is
modelled as `Nat`. -/

/-- Model of `struct sort_map` (pioc.c lines 80-84). -/
structure sort_map where
  remap : Nat
  map : Int
deriving DecidableEq, Repr

/-- Model of the `qsort` comparator `compare` (pioc.c lines 448-459). -/
def compare (a b : sort_map) : Int :=
  if a.map < b.map then -1
  else if b.map < a.map then 1
  else 0

/-- The `tmpsort` array handed to `qsort`: entry `m` holds index `m` and
`compmap[m]` (pioc.c lines 628-632). -/
def tmpsortOf (compmap : List Int) : List sort_map :=
  (List.range compmap.length).map (fun m => { remap := m, map := compmap.getD m 0 })

/-- The contract of C `qsort` with comparator `compare`: the output is a
permutation of the input that is ascending for the comparator, which for
`compare` means the `map` components are nondecreasing.  The order of
elements with equal `map` values is unspecified by the C standard, so
any list satisfying this predicate is a possible outcome. -/
def ValidQsort (inp out : List sort_map) : Prop :=
  out.Perm inp ∧ List.Pairwise (fun a b => a.map ≤ b.map) out

instance (inp out : List sort_map) : Decidable (ValidQsort inp out) := by
  unfold ValidQsort; infer_instance

/-- The `needssort` detection loop of `PIOc_InitDecomp` (pioc.c lines
609-617): set when some position `m > 0` has `compmap[m] > 0` and
`compmap[m] < compmap[m-1]`. -/
def needssortCheck (compmap : List Int) : Bool :=
  (List.range compmap.length).any fun m =>
    decide (0 < m) && decide (0 < compmap.getD m 0) &&
      decide (compmap.getD m 0 < compmap.getD (m - 1) 0)

/-- Construction of `iodesc->map` and `iodesc->remap` by `PIOc_InitDecomp`
(pioc.c lines 607-644).  When `needssort` is set, `tmpsort` is filled and
sorted by `qsort` (the `qsortFn` oracle), and entry `k` of the result is
`(compmap[tmpsort[k].remap], tmpsort[k].remap)`; otherwise the map is a
plain copy of `compmap` and `remap` stays `NULL`. -/
def buildMap (compmap : List Int) (qsortFn : List sort_map → List sort_map) :
    List Int × Option (List Nat) :=
  if needssortCheck compmap then
    let sorted := qsortFn (tmpsortOf compmap)
    (sorted.map (fun s => compmap.getD s.remap 0), some (sorted.map (fun s => s.remap)))
  else
    (compmap, none)

/-- Stability of the produced permutation: among positions whose map
values are equal, original indices appear in increasing order. -/
def StableRemap (compmap : List Int) (remapL : List Nat) : Prop :=
  ∀ j, j < remapL.length → ∀ i, i < j →
    compmap.getD (remapL.getD i 0) 0 = compmap.getD (remapL.getD j 0) 0 →
    remapL.getD i 0 < remapL.getD j 0

instance (compmap : List Int) (remapL : List Nat) :
    Decidable (StableRemap compmap remapL) := by
  unfold StableRemap; infer_instance

end PIO

namespace PIO

/-- Entries of `tmpsort` carry the map value at their own index. -/
lemma map_of_mem_tmpsortOf {compmap : List Int} {s : sort_map}
    (h : s ∈ tmpsortOf compmap) : s.map = compmap.getD s.remap 0 := by
  unfold tmpsortOf at h
  simp only [List.mem_map, List.mem_range] at h
  obtain ⟨m, _, rfl⟩ := h
  rfl

/-- Mapping `tmpsort` back to its indices yields `range maplen`. -/
lemma tmpsortOf_map_remap (compmap : List Int) :
    (tmpsortOf compmap).map (fun s => s.remap) = List.range compmap.length := by
  unfold tmpsortOf
  rw [List.map_map]
  exact List.map_id' _

/-- C1 (amended): for every compmap accepted by `PIOc_InitDecomp` and every
outcome of `qsort` meeting its contract, whenever the remap table is
present (`needssort` set) the stored map satisfies
`map'[k] = compmap[remap[k]]` for all `k` and is nondecreasing; when
`needssort` is false the remap table is absent and the stored map is the
input map element for element (and need not be nondecreasing). -/
theorem initDecomp_sort_correct (compmap : List Int)
    (qs : List sort_map → List sort_map)
    (h : ValidQsort (tmpsortOf compmap) (qs (tmpsortOf compmap))) :
    (∀ remapL, (buildMap compmap qs).2 = some remapL →
       (∀ k, k < compmap.length →
          (buildMap compmap qs).1.getD k 0 = compmap.getD (remapL.getD k 0) 0) ∧
       List.Sorted (· ≤ ·) (buildMap compmap qs).1) ∧
    (needssortCheck compmap = false →
       (buildMap compmap qs).2 = none ∧ (buildMap compmap qs).1 = compmap) := by
  obtain ⟨hperm, hpw⟩ := h
  by_cases hns : needssortCheck compmap
  · have hbm : buildMap compmap qs =
        ((qs (tmpsortOf compmap)).map (fun s => compmap.getD s.remap 0),
         some ((qs (tmpsortOf compmap)).map (fun s => s.remap))) := by
      unfold buildMap
      rw [if_pos hns]
    have hmem : ∀ s ∈ qs (tmpsortOf compmap), compmap.getD s.remap 0 = s.map :=
      fun s hsmem => (map_of_mem_tmpsortOf (hperm.mem_iff.mp hsmem)).symm
    have hlen : (qs (tmpsortOf compmap)).length = compmap.length := by
      rw [hperm.length_eq]
      unfold tmpsortOf
      simp
    refine ⟨?_, fun hfalse => absurd hns (by simp [hfalse])⟩
    intro remapL hre
    rw [hbm] at hre
    have hremapL : remapL = (qs (tmpsortOf compmap)).map (fun s => s.remap) :=
      (Option.some_injective _ hre).symm
    constructor
    · intro k hk
      have hk1 : k < ((qs (tmpsortOf compmap)).map
          (fun s => compmap.getD s.remap 0)).length := by
        simpa [hlen] using hk
      have hk2 : k < (qs (tmpsortOf compmap)).length := by simpa [hlen] using hk
      have hk3 : k < ((qs (tmpsortOf compmap)).map (fun s => s.remap)).length := by
        simpa [hlen] using hk
      rw [hbm]
      simp only [hremapL]
      rw [List.getD_eq_getElem _ _ hk1, List.getD_eq_getElem _ _ hk3,
        List.getElem_map, List.getElem_map]
    · rw [hbm]
      simp only []
      have hcongr : (qs (tmpsortOf compmap)).map (fun s => compmap.getD s.remap 0) =
          (qs (tmpsortOf compmap)).map (fun s => s.map) :=
        List.map_congr_left hmem
      rw [hcongr]
      exact List.pairwise_map.mpr hpw
  · have hbm : buildMap compmap qs = (compmap, none) := by
      unfold buildMap
      rw [if_neg hns]
    refine ⟨fun remapL hre => ?_, fun _ => ⟨by rw [hbm], by rw [hbm]⟩⟩
    rw [hbm] at hre
    exact absurd hre (by simp)

/-- C1 witness: concrete application with compmap `[2, 1]` and a valid
qsort outcome. -/
theorem initDecomp_sort_correct_witness :
    List.Sorted (· ≤ ·)
      (buildMap [2, 1] (fun _ => [⟨1, 1⟩, ⟨0, 2⟩])).1 :=
  ((initDecomp_sort_correct [2, 1] (fun _ => [⟨1, 1⟩, ⟨0, 2⟩]) (by decide)).1
    [1, 0] (by rfl)).2

/-- C1 counterexample: on compmap `[1, 0]` the code leaves `needssort`
unset (no position is both positive and below its predecessor), so the
stored map is the unsorted `[1, 0]`, which is not nondecreasing — the
unconditional monotonicity part of the claim is false. -/
theorem initDecomp_sort_nondecreasing_cex :
    needssortCheck [1, 0] = false ∧
    buildMap [1, 0] (fun l => l) = ([1, 0], none) ∧
    ¬ List.Sorted (· ≤ ·) (buildMap [1, 0] (fun l => l)).1 := by
  refine ⟨by decide, by rfl, by decide⟩

end PIO

namespace PIO

/-- C2 (amended): `needssort` is set exactly when some index `k > 0` has
`compmap[k] > 0` and `compmap[k] < compmap[k-1]`; when it is set, the
produced remap table is a permutation of the index range (so `(map',
remap)` is a permutation of the input sorted by map value), but the order
of equal map values — hence stability — is not guaranteed, because
`qsort` with the tie-returning comparator `compare` leaves it
unspecified. -/
theorem initDecomp_needssort_iff (compmap : List Int)
    (qs : List sort_map → List sort_map)
    (h : ValidQsort (tmpsortOf compmap) (qs (tmpsortOf compmap))) :
    (needssortCheck compmap = true ↔
       ∃ k, 0 < k ∧ k < compmap.length ∧ 0 < compmap.getD k 0 ∧
         compmap.getD k 0 < compmap.getD (k - 1) 0) ∧
    (∀ remapL, (buildMap compmap qs).2 = some remapL →
       remapL.Perm (List.range compmap.length)) := by
  constructor
  · unfold needssortCheck
    simp only [List.any_eq_true, List.mem_range, Bool.and_eq_true, decide_eq_true_eq]
    constructor
    · rintro ⟨k, hk, ⟨h1, h2⟩, h3⟩
      exact ⟨k, h1, hk, h2, h3⟩
    · rintro ⟨k, h1, hk, h2, h3⟩
      exact ⟨k, hk, ⟨h1, h2⟩, h3⟩
  · intro remapL hre
    by_cases hns : needssortCheck compmap
    · have hbm : (buildMap compmap qs).2 =
          some ((qs (tmpsortOf compmap)).map (fun s => s.remap)) := by
        unfold buildMap
        rw [if_pos hns]
      rw [hbm] at hre
      have hremapL : remapL = (qs (tmpsortOf compmap)).map (fun s => s.remap) :=
        (Option.some_injective _ hre).symm
      rw [hremapL, ← tmpsortOf_map_remap compmap]
      exact h.1.map (fun s => s.remap)
    · have hbm : (buildMap compmap qs).2 = none := by
        unfold buildMap
        rw [if_neg hns]
      rw [hbm] at hre
      exact absurd hre (by simp)

/-- C2 witness: on compmap `[2, 1]` the theorem yields that `needssort`
is set. -/
theorem initDecomp_needssort_iff_witness : needssortCheck [2, 1] = true :=
  (initDecomp_needssort_iff [2, 1] (fun _ => [⟨1, 1⟩, ⟨0, 2⟩]) (by decide)).1.mpr
    ⟨1, by decide, by decide, by decide, by decide⟩

/-- C2 counterexample: on compmap `[2, 2, 1]` the list
`[⟨2, 1⟩, ⟨1, 2⟩, ⟨0, 2⟩]` is a valid `qsort` outcome (a permutation of
`tmpsort`, nondecreasing in the map values), and the remap table it
produces, `[2, 1, 0]`, is not stable: the two entries with map value `2`
appear with their original indices in decreasing order. -/
theorem initDecomp_sort_stability_cex :
    ValidQsort (tmpsortOf [2, 2, 1]) [⟨2, 1⟩, ⟨1, 2⟩, ⟨0, 2⟩] ∧
    buildMap [2, 2, 1] (fun _ => [⟨2, 1⟩, ⟨1, 2⟩, ⟨0, 2⟩]) =
      ([1, 2, 2], some [2, 1, 0]) ∧
    ¬ StableRemap [2, 2, 1] [2, 1, 0] := by
  refine ⟨by decide, by rfl, by decide⟩

end PIO

namespace PIO

/-- Model of the fields of `iosystem_desc_t` (pio.h) that the embedded
functions of pioc.c read. -/
structure iosystem_desc where
  async : Bool
  ioproc : Bool
  compproc : Bool
  num_iotasks : Int
  default_rearranger : Int
  error_handler : Int
  comp_comm_null : Bool
  io_comm_null : Bool
deriving DecidableEq, Repr

/-- Model of the fields of `io_desc_t` (pio.h) that `PIOc_InitDecomp`
fills in, plus `ndof` (read by `PIOc_get_local_array_size`). -/
structure io_desc where
  maplen : Int
  map : List Int
  needssort : Bool
  remap : Option (List Nat)
  dimlen : List Int
  rearranger : Int
  readonly : Bool
  num_aiotasks : Int
  firstregion_start : List Int
  firstregion_count : List Int
  ioid : Int
  ndof : Int
deriving DecidableEq, Repr

/-- Outcomes of the calls `PIOc_InitDecomp` makes into code outside the
two source files.  Each `malloc` is a success flag; each fallible callee
is an `Except` carrying the error it would return.  `unique_check`
(`run_unique_check`) receives the private copy of the compmap and
returns the read-only flag together with the possibly mutated copy.
`subset_create` / `box_create` stand for `subset_rearrange_create` /
`box_rearrange_create`; on success they yield the `ndof` they store in
the descriptor.  `num_aiotasks_bcast` and `next_ioid_bcast` are the
values this rank would receive from the respective `MPI_Bcast` roots
(`next_ioid_bcast = none` models being the broadcast root, which keeps
its own value). -/
structure ExternOracles where
  malloc_iodesc_ok : Bool
  malloc_map_ok : Bool
  malloc_tmpsort_ok : Bool
  malloc_remap_ok : Bool
  malloc_dimlen_ok : Bool
  malloc_tmpmap_ok : Bool
  qsortFn : List sort_map → List sort_map
  unique_check : List Int → Except Int (Bool × List Int)
  subset_create : Except Int Int
  calc_start_count : Except Int (List Int × List Int × Int)
  max_iobuffer : Except Int Int
  box_create : Except Int Int
  add_to_list : Except Int Unit
  num_aiotasks_bcast : Int
  next_ioid_bcast : Option Int

/-- What a call to `PIOc_InitDecomp` leaves behind: the return code, the
descriptor appended to the global iodesc list (`none` when nothing was
registered), the value written through `ioidp`, the new value of the
global counter `pio_next_ioid`, and the final contents of the caller
compmap buffer. -/
structure InitDecompResult where
  ret : Int
  registered : Option io_desc
  ioid_out : Option Int
  next_ioid : Int
  compmap_after : Option (List Int)
deriving Repr

/-- Final steps of `PIOc_InitDecomp` (pioc.c lines 730-793): in async
mode receive `pio_next_ioid` from the io root via `MPI_Bcast` (the
root keeps its own value, modelled by `next_ioid_bcast = none`), then
`iodesc->ioid = pio_next_ioid++`, `*ioidp = iodesc->ioid`, and
`pio_add_to_iodesc_list`. -/
def initDecompFinish (ios : iosystem_desc) (compmap : Option (List Int))
    (O : ExternOracles) (next_ioid : Int) (d : io_desc) : InitDecompResult :=
  let nid := if ios.async then O.next_ioid_bcast.getD next_ioid else next_ioid
  let d1 := { d with ioid := nid }
  match O.add_to_list with
  | .error e => ⟨e, none, some nid, nid + 1, compmap⟩
  | .ok _ => ⟨PIO_NOERR, some d1, some nid, nid + 1, compmap⟩

/-- Box-branch start/count setup of `PIOc_InitDecomp` (pioc.c lines
675-714): on io tasks, either take the caller-provided `iostart` and
`iocount` for the first region with `num_aiotasks = ios->num_iotasks`,
or compute them with `CalcStartandCount`; then compute the max io
buffer size.  Non-io tasks leave the descriptor untouched here. -/
def initDecompBoxStage (ios : iosystem_desc)
    (iostart iocount : Option (List Int)) (O : ExternOracles)
    (desc0 : io_desc) : Except Int io_desc :=
  if ios.ioproc then
    match iostart, iocount with
    | some st, some ct =>
      O.max_iobuffer.map (fun _ =>
        { desc0 with firstregion_start := st, firstregion_count := ct,
                     num_aiotasks := ios.num_iotasks })
    | _, _ =>
      match O.calc_start_count with
      | .error e => .error e
      | .ok (st, ct, na) =>
        O.max_iobuffer.map (fun _ =>
          { desc0 with firstregion_start := st, firstregion_count := ct,
                       num_aiotasks := na })
  else .ok desc0

/-- Rearranger-specific tail of `PIOc_InitDecomp` (pioc.c lines 650-793):
subset or box plan creation, then ioid assignment and registration.
`cm` is the compmap contents, `desc0` the descriptor filled so far.
In the subset branch the duplicate check runs on a private copy of the
compmap (`memcpy` into `tmpmap`, lines 664-668); the model therefore
hands `cm` to the `unique_check` oracle and discards the buffer the
oracle returns, exactly as the code frees `tmpmap`. -/
def PIOc_InitDecomp_rearr (ios : iosystem_desc) (compmap : Option (List Int))
    (cm : List Int) (rearr : Int) (iostart iocount : Option (List Int))
    (O : ExternOracles) (next_ioid : Int) (desc0 : io_desc) : InitDecompResult :=
  if rearr = PIO_REARR_SUBSET then
    -- duplicate check on a private copy of the compmap (lines 660-673)
    if ios.compproc && !O.malloc_tmpmap_ok then
      ⟨PIO_ENOMEM, none, none, next_ioid, compmap⟩
    else
      match (if ios.compproc then (O.unique_check cm).map Prod.fst
             else .ok desc0.readonly : Except Int Bool) with
      | .error e => ⟨e, none, none, next_ioid, compmap⟩
      | .ok ro =>
        let d1 := { desc0 with readonly := ro, num_aiotasks := ios.num_iotasks }
        match O.subset_create with
        | .error e => ⟨e, none, none, next_ioid, compmap⟩
        | .ok ndofv => initDecompFinish ios compmap O next_ioid { d1 with ndof := ndofv }
  else
    match initDecompBoxStage ios iostart iocount O desc0 with
    | .error e => ⟨e, none, none, next_ioid, compmap⟩
    | .ok d1 =>
      -- MPI_Bcast of num_aiotasks from the io root (lines 716-719)
      let d2 := if ios.ioproc then d1
                else { d1 with num_aiotasks := O.num_aiotasks_bcast }
      if rearr = PIO_REARR_BOX then
        match O.box_create with
        | .error e => ⟨e, none, none, next_ioid, compmap⟩
        | .ok ndofv => initDecompFinish ios compmap O next_ioid { d2 with ndof := ndofv }
      else initDecompFinish ios compmap O next_ioid d2

/-- Model of `PIOc_InitDecomp` (pioc.c lines 505-794).  The iosystem
lookup result stands in for `pio_get_iosystem_from_id`; `ioidp` is
whether the caller passed a non-NULL `ioidp`; `rearranger = none`
models a NULL rearranger pointer.  MPI sends/broadcasts executed by the
async parameter-forwarding block are no-ops on this rank and are
modelled as succeeding. -/
def PIOc_InitDecomp (ios_l : Option iosystem_desc)
    (gdimlen : Option (List Int)) (compmap : Option (List Int))
    (ioidp : Bool) (rearranger : Option Int)
    (iostart iocount : Option (List Int))
    (O : ExternOracles) (next_ioid : Int) : InitDecompResult :=
  match ios_l with
  | none => ⟨PIO_EBADID, none, none, next_ioid, compmap⟩
  | some ios =>
    -- caller must provide gdimlen, compmap and ioidp (lines 528-530)
    if gdimlen.isNone || compmap.isNone || !ioidp then
      ⟨PIO_EINVAL, none, none, next_ioid, compmap⟩
    else
      let gdims := gdimlen.getD []
      let cm := compmap.getD []
      -- dim length check (lines 533-535)
      if gdims.any (fun d => decide (d ≤ 0)) then
        ⟨PIO_EINVAL, none, none, next_ioid, compmap⟩
      -- async rearranger restriction (lines 585-586)
      else if ios.async &&
          (match rearranger with
           | some r => r != ios.default_rearranger
           | none => false) then
        ⟨PIO_EBADREARR, none, none, next_ioid, compmap⟩
      -- malloc_iodesc (lines 593-594)
      else if !O.malloc_iodesc_ok then
        ⟨PIO_ENOMEM, none, none, next_ioid, compmap⟩
      -- iodesc->map allocation (lines 600-601)
      else if !O.malloc_map_ok then
        ⟨PIO_ENOMEM, none, none, next_ioid, compmap⟩
      else
        let ns := needssortCheck cm
        -- tmpsort and iodesc->remap allocations (lines 620-629)
        if ns && !O.malloc_tmpsort_ok then
          ⟨PIO_ENOMEM, none, none, next_ioid, compmap⟩
        else if ns && !O.malloc_remap_ok then
          ⟨PIO_ENOMEM, none, none, next_ioid, compmap⟩
        -- iodesc->dimlen allocation (lines 647-648)
        else if !O.malloc_dimlen_ok then
          ⟨PIO_ENOMEM, none, none, next_ioid, compmap⟩
        else
          let bm := buildMap cm O.qsortFn
          let rearr := match rearranger with
            | none => ios.default_rearranger
            | some r => r
          let desc0 : io_desc :=
            { maplen := cm.length, map := bm.1, needssort := ns,
              remap := bm.2, dimlen := gdims, rearranger := rearr,
              readonly := false, num_aiotasks := 0,
              firstregion_start := [], firstregion_count := [],
              ioid := 0, ndof := 0 }
          PIOc_InitDecomp_rearr ios compmap cm rearr iostart iocount O
            next_ioid desc0

end PIO

namespace PIO

/-- Model of `PIOc_init_decomp` (pioc.c lines 798-832): allocates a
1-based copy of the 0-based compmap (`m1b_ok` is the outcome of that
`malloc`), adds 1 to every element, and calls the legacy
`PIOc_InitDecomp`, passing the rearranger by pointer exactly when the
caller gave a nonzero value.  The temporary copy is freed afterwards, so
the caller buffer is untouched. -/
def PIOc_init_decomp (ios_l : Option iosystem_desc)
    (gdimlen : Option (List Int)) (compmap : List Int)
    (ioidp : Bool) (rearranger : Int)
    (iostart iocount : Option (List Int))
    (O : ExternOracles) (next_ioid : Int) (m1b_ok : Bool) : InitDecompResult :=
  let rearrangerp : Option Int := if rearranger ≠ 0 then some rearranger else none
  if !m1b_ok then
    ⟨PIO_ENOMEM, none, none, next_ioid, some compmap⟩
  else
    let r := PIOc_InitDecomp ios_l gdimlen (some (compmap.map (· + 1)))
      ioidp rearrangerp iostart iocount O next_ioid
    { r with compmap_after := some compmap }

/-- Outcome of a call that either returns an `int` or aborts the whole
program through `piodie`. -/
inductive SizeOutcome where
  | ret (v : Int)
  | die
deriving DecidableEq, Repr

/-- Model of `PIOc_get_local_array_size` (pioc.c lines 329-338): the
argument is the result of the `pio_get_iodesc_from_id` lookup; an
unknown ioid makes the function call `piodie`, a known one returns the
descriptor field `ndof`. -/
def PIOc_get_local_array_size (iodesc_l : Option io_desc) : SizeOutcome :=
  match iodesc_l with
  | none => .die
  | some d => .ret d.ndof

/-- Model of `PIOc_iosystem_is_active` (pioc.c lines 95-112): the first
argument is the result of the `pio_get_iosystem_from_id` lookup, the
second whether the caller passed a non-NULL `active` pointer.  Returns
the return code and the value written through `active` (if any). -/
def PIOc_iosystem_is_active (ios_l : Option iosystem_desc)
    (active : Bool) : Int × Option Bool :=
  (PIO_NOERR,
   if active then
     some (match ios_l with
           | none => false
           | some ios => !(ios.comp_comm_null && ios.io_comm_null))
   else none)

/-- What a call to `PIOc_set_iosystem_error_handling` leaves behind: the
return code, the new library-wide default handler, the new state of the
looked-up iosystem, and the value written through `old_method`. -/
structure SetErrResult where
  ret : Int
  default_handler : Int
  ios : Option iosystem_desc
  old_out : Option Int
deriving DecidableEq, Repr

/-- Model of `PIOc_set_iosystem_error_handling` (pioc.c lines 383-438).
`default_handler` is the current value of the global
`default_error_handler`; `ios_l` the result of the iosystem lookup
(irrelevant when `iosysid = PIO_DEFAULT`); `old_method` whether the
caller passed a non-NULL `old_method` pointer.  The async forwarding
block only sends messages and is modelled as succeeding. -/
def PIOc_set_iosystem_error_handling (default_handler : Int)
    (ios_l : Option iosystem_desc) (iosysid : Int) (method : Int)
    (old_method : Bool) : SetErrResult :=
  -- find info about this iosystem (lines 392-394)
  if iosysid ≠ PIO_DEFAULT ∧ ios_l = none then
    ⟨PIO_EBADID, default_handler, ios_l, none⟩
  -- check that a valid error handler was provided (lines 397-399)
  else if method ≠ PIO_INTERNAL_ERROR ∧ method ≠ PIO_BCAST_ERROR ∧
      method ≠ PIO_RETURN_ERROR then
    ⟨PIO_EINVAL, default_handler, ios_l, none⟩
  else
    -- return the current handler (lines 427-429)
    let old : Option Int :=
      if old_method then
        some (if iosysid = PIO_DEFAULT then default_handler
              else ((ios_l.map (fun ios => ios.error_handler)).getD 0))
      else none
    -- set the new error handler (lines 431-435)
    if iosysid = PIO_DEFAULT then
      ⟨PIO_NOERR, method, ios_l, old⟩
    else
      ⟨PIO_NOERR, default_handler,
        (ios_l.map (fun ios => { ios with error_handler := method })), old⟩

/-- Model of the validation and io-rank assignment of
`PIOc_Init_Intracomm` (pioc.c lines 957-1121).  `num_comptasks` is the
size of `comp_comm`; `iosysidp` whether the caller passed a non-NULL
result pointer.  On success the result is the `ios->ioranks` array:
`ioranks[i] = (base + i * stride) % num_comptasks` (line 1052), with C
truncated division for `%`.  Allocations and MPI communicator plumbing
are modelled as succeeding. -/
def PIOc_Init_Intracomm (num_comptasks : Int) (num_iotasks stride base : Int)
    (iosysidp : Bool) : Except Int (List Int) :=
  -- check the inputs (lines 991-992)
  if iosysidp = false ∨ num_iotasks < 1 ∨ num_iotasks * stride > num_comptasks then
    .error PIO_EINVAL
  else
    .ok ((List.range num_iotasks.toNat).map
      (fun i : Nat => (base + (i : Int) * stride).tmod num_comptasks))

/-- Assignment of a decomposition id (pioc.c lines 739-742):
`iodesc->ioid = pio_next_ioid++`, returning the assigned id and the new
counter. -/
def assign_ioid (next : Int) : Int × Int := (next, next + 1)

/-- Ids assigned by `n` successive successful `PIOc_InitDecomp` calls
starting from counter value `c`. -/
def ioidSeq : Int → Nat → List Int
  | _, 0 => []
  | c, n + 1 =>
    let p := assign_ioid c
    p.1 :: ioidSeq p.2 n

/-- Async id assignment across the ranks of one iosystem (pioc.c lines
731-742): every rank first receives `pio_next_ioid` from the io root via
`MPI_Bcast`, then assigns it.  Input: the per-rank counters and the
index of the io root; output: the id assigned on each rank and the new
per-rank counters. -/
def asyncAssignIoids (counters : List Int) (root : Nat) :
    List Int × List Int :=
  let rv := counters.getD root 0
  (counters.map (fun _ => (assign_ioid rv).1),
   counters.map (fun _ => (assign_ioid rv).2))

end PIO

namespace PIO

/-- The finish step leaves the caller compmap buffer untouched. -/
lemma initDecompFinish_compmap_after (ios : iosystem_desc)
    (compmap : Option (List Int)) (O : ExternOracles) (nid : Int)
    (d : io_desc) :
    (initDecompFinish ios compmap O nid d).compmap_after = compmap := by
  unfold initDecompFinish
  repeat' split
  all_goals rfl

/-- The rearranger tail leaves the caller compmap buffer untouched: the
subset duplicate check receives the private copy and its possibly
mutated buffer is discarded. -/
lemma initDecompRearr_compmap_after (ios : iosystem_desc)
    (compmap : Option (List Int)) (cm : List Int) (rearr : Int)
    (ist ict : Option (List Int)) (O : ExternOracles) (nid : Int)
    (d0 : io_desc) :
    (PIOc_InitDecomp_rearr ios compmap cm rearr ist ict O nid d0).compmap_after
      = compmap := by
  unfold PIOc_InitDecomp_rearr
  repeat' split
  all_goals first | rfl | apply initDecompFinish_compmap_after

/-- C8: `PIOc_InitDecomp` never modifies the caller compmap array: on
every path — validation failures, allocation failures, both rearranger
branches (the subset duplicate check runs on a private `memcpy` copy,
whose possibly mutated contents are freed), and success — the buffer
ends the call holding its original contents. -/
theorem initDecomp_compmap_unmodified (ios_l : Option iosystem_desc)
    (gd cm : Option (List Int)) (ioidp : Bool) (re : Option Int)
    (ist ict : Option (List Int)) (O : ExternOracles) (nid : Int) :
    (PIOc_InitDecomp ios_l gd cm ioidp re ist ict O nid).compmap_after = cm := by
  unfold PIOc_InitDecomp
  cases ios_l
  · rfl
  · dsimp only
    repeat' split
    all_goals first | rfl | apply initDecompRearr_compmap_after

/-- Concrete iosystem used to instantiate theorems with hypotheses. -/
def iosEx : iosystem_desc :=
  { async := false, ioproc := true, compproc := true, num_iotasks := 1,
    default_rearranger := PIO_REARR_SUBSET,
    error_handler := PIO_INTERNAL_ERROR,
    comp_comm_null := false, io_comm_null := false }

/-- Concrete oracle set in which every external call succeeds. -/
def oracleEx : ExternOracles :=
  { malloc_iodesc_ok := true, malloc_map_ok := true,
    malloc_tmpsort_ok := true, malloc_remap_ok := true,
    malloc_dimlen_ok := true, malloc_tmpmap_ok := true,
    qsortFn := fun l => l, unique_check := fun b => .ok (false, b),
    subset_create := .ok 2, calc_start_count := .ok ([], [], 1),
    max_iobuffer := .ok 0, box_create := .ok 2, add_to_list := .ok (),
    num_aiotasks_bcast := 1, next_ioid_bcast := none }

/-- C6: for every 0-based compmap, `PIOc_init_decomp` (when the
allocation of the temporary 1-based copy succeeds) returns the same
result, registers the same decomposition, writes the same ioid and
advances the id counter identically to `PIOc_InitDecomp` called on the
element-wise `compmap + 1`, with the rearranger passed by pointer
exactly when it is nonzero. -/
theorem init_decomp_refines_InitDecomp (ios_l : Option iosystem_desc)
    (gd : Option (List Int)) (compmap : List Int) (ioidp : Bool)
    (rearranger : Int) (ist ict : Option (List Int)) (O : ExternOracles)
    (nid : Int) (m1b_ok : Bool) (h : m1b_ok = true) :
    (PIOc_init_decomp ios_l gd compmap ioidp rearranger ist ict O nid
        m1b_ok).ret =
      (PIOc_InitDecomp ios_l gd (some (compmap.map (· + 1))) ioidp
        (if rearranger ≠ 0 then some rearranger else none) ist ict O nid).ret ∧
    (PIOc_init_decomp ios_l gd compmap ioidp rearranger ist ict O nid
        m1b_ok).registered =
      (PIOc_InitDecomp ios_l gd (some (compmap.map (· + 1))) ioidp
        (if rearranger ≠ 0 then some rearranger else none) ist ict O
        nid).registered ∧
    (PIOc_init_decomp ios_l gd compmap ioidp rearranger ist ict O nid
        m1b_ok).ioid_out =
      (PIOc_InitDecomp ios_l gd (some (compmap.map (· + 1))) ioidp
        (if rearranger ≠ 0 then some rearranger else none) ist ict O
        nid).ioid_out ∧
    (PIOc_init_decomp ios_l gd compmap ioidp rearranger ist ict O nid
        m1b_ok).next_ioid =
      (PIOc_InitDecomp ios_l gd (some (compmap.map (· + 1))) ioidp
        (if rearranger ≠ 0 then some rearranger else none) ist ict O
        nid).next_ioid := by
  subst h
  unfold PIOc_init_decomp
  refine ⟨?_, ?_, ?_, ?_⟩ <;> rfl

/-- C6 witness: a concrete instantiation of the refinement theorem, on a
compmap with a repeated offset and the subset rearranger requested
explicitly. -/
theorem init_decomp_refines_InitDecomp_witness :
    (PIOc_init_decomp (some iosEx) (some [4]) [2, 0, 0] true
        PIO_REARR_SUBSET none none oracleEx 512 true).ret =
      (PIOc_InitDecomp (some iosEx) (some [4]) (some [3, 1, 1]) true
        (some PIO_REARR_SUBSET) none none oracleEx 512).ret := by
  have h := init_decomp_refines_InitDecomp (some iosEx) (some [4]) [2, 0, 0]
    true PIO_REARR_SUBSET none none oracleEx 512 true rfl
  have h2 : (if PIO_REARR_SUBSET ≠ 0 then some PIO_REARR_SUBSET else none)
      = some PIO_REARR_SUBSET := by decide
  have h3 : List.map (· + 1) [2, 0, 0] = ([3, 1, 1] : List Int) := by decide
  calc (PIOc_init_decomp (some iosEx) (some [4]) [2, 0, 0] true
        PIO_REARR_SUBSET none none oracleEx 512 true).ret
      = (PIOc_InitDecomp (some iosEx) (some [4])
          (some (List.map (· + 1) [2, 0, 0])) true
          (if PIO_REARR_SUBSET ≠ 0 then some PIO_REARR_SUBSET else none)
          none none oracleEx 512).ret := h.1
    _ = (PIOc_InitDecomp (some iosEx) (some [4]) (some [3, 1, 1]) true
          (some PIO_REARR_SUBSET) none none oracleEx 512).ret := by
          rw [h2, h3]

end PIO

namespace PIO

/-- Condition that some `malloc` performed by `PIOc_InitDecomp` on its
execution path fails: the iodesc allocation (line 593), the map copy
(line 600), the two sort tables (lines 622, 624; only reached when
`needssort` is set), the dimlen array (line 647), or — for the subset
rearranger on a computational process — the private compmap copy
(line 665). -/
def allocFail (ios : iosystem_desc) (cmv : List Int) (re : Option Int)
    (O : ExternOracles) : Bool :=
  !O.malloc_iodesc_ok || !O.malloc_map_ok ||
    (needssortCheck cmv && (!O.malloc_tmpsort_ok || !O.malloc_remap_ok)) ||
    !O.malloc_dimlen_ok ||
    (decide ((match re with
              | none => ios.default_rearranger
              | some r => r) = PIO_REARR_SUBSET) &&
      ios.compproc && !O.malloc_tmpmap_ok)

/-- C3: `PIOc_InitDecomp` returns `PIO_EINVAL` when `gdimlen`, `compmap`
or `ioidp` is NULL or some `gdimlen[i]` is not positive; `PIO_EBADREARR`
when (inputs being valid) the iosystem is async and the caller requests
a rearranger different from the iosystem default; and `PIO_ENOMEM` when
(the earlier checks passing) any allocation on the execution path
fails.  In each case no decomposition is registered. -/
theorem initDecomp_error_contract :
    (∀ (ios : iosystem_desc) (gd cm : Option (List Int)) (ioidp : Bool)
       (re : Option Int) (ist ict : Option (List Int)) (O : ExternOracles)
       (nid : Int),
      (gd = none ∨ cm = none ∨ ioidp = false ∨ ∃ d ∈ gd.getD [], d ≤ 0) →
      (PIOc_InitDecomp (some ios) gd cm ioidp re ist ict O nid).ret
          = PIO_EINVAL ∧
      (PIOc_InitDecomp (some ios) gd cm ioidp re ist ict O nid).registered
          = none) ∧
    (∀ (ios : iosystem_desc) (gdims cmv : List Int) (rv : Int)
       (ist ict : Option (List Int)) (O : ExternOracles) (nid : Int),
      (∀ d ∈ gdims, 0 < d) → ios.async = true →
      rv ≠ ios.default_rearranger →
      (PIOc_InitDecomp (some ios) (some gdims) (some cmv) true (some rv)
        ist ict O nid).ret = PIO_EBADREARR ∧
      (PIOc_InitDecomp (some ios) (some gdims) (some cmv) true (some rv)
        ist ict O nid).registered = none) ∧
    (∀ (ios : iosystem_desc) (gdims cmv : List Int) (re : Option Int)
       (ist ict : Option (List Int)) (O : ExternOracles) (nid : Int),
      (∀ d ∈ gdims, 0 < d) →
      (ios.async &&
        (match re with
         | some r => r != ios.default_rearranger
         | none => false)) = false →
      allocFail ios cmv re O = true →
      (PIOc_InitDecomp (some ios) (some gdims) (some cmv) true re
        ist ict O nid).ret = PIO_ENOMEM ∧
      (PIOc_InitDecomp (some ios) (some gdims) (some cmv) true re
        ist ict O nid).registered = none) := by
  refine ⟨?_, ?_, ?_⟩
  · intro ios gd cm ioidp re ist ict O nid hbad
    rcases hbad with h | h | h | h
    · subst h; exact ⟨rfl, rfl⟩
    · subst h; cases gd <;> exact ⟨rfl, rfl⟩
    · subst h; cases gd <;> cases cm <;> exact ⟨rfl, rfl⟩
    · cases gd with
      | none => simp at h
      | some gdims =>
        cases cm with
        | none => exact ⟨rfl, rfl⟩
        | some cmv =>
          cases ioidp with
          | false => exact ⟨rfl, rfl⟩
          | true =>
            have h2 : (gdims.any fun d => decide (d ≤ 0)) = true := by
              simp only [List.any_eq_true, decide_eq_true_eq]
              simpa using h
            have key : PIOc_InitDecomp (some ios) (some gdims) (some cmv) true
                re ist ict O nid = ⟨PIO_EINVAL, none, none, nid, some cmv⟩ := by
              unfold PIOc_InitDecomp
              simp only [Option.isNone_some, Bool.not_true, Bool.or_self,
                Bool.or_false, Bool.false_or, Bool.false_eq_true, if_false,
                Option.getD_some, h2, if_true]
            rw [key]
            exact ⟨rfl, rfl⟩
  · intro ios gdims cmv rv ist ict O nid hpos hasync hne
    have h2 : (gdims.any fun d => decide (d ≤ 0)) = false := by
      rw [List.any_eq_false]
      intro d hd
      simpa using hpos d hd
    have h3 : (ios.async && (rv != ios.default_rearranger)) = true := by
      rw [hasync]
      simpa [bne_iff_ne] using hne
    have key : PIOc_InitDecomp (some ios) (some gdims) (some cmv) true
        (some rv) ist ict O nid = ⟨PIO_EBADREARR, none, none, nid, some cmv⟩ := by
      unfold PIOc_InitDecomp
      simp only [Option.isNone_some, Bool.not_true, Bool.or_self,
        Bool.or_false, Bool.false_or, Bool.false_eq_true, if_false,
        Option.getD_some, h2, h3, if_true]
    rw [key]
    exact ⟨rfl, rfl⟩
  · intro ios gdims cmv re ist ict O nid hpos hrearr hfail
    have h2 : (gdims.any fun d => decide (d ≤ 0)) = false := by
      rw [List.any_eq_false]
      intro d hd
      simpa using hpos d hd
    unfold allocFail at hfail
    unfold PIOc_InitDecomp
    simp only [Option.isNone_some, Bool.not_true, Bool.or_self, Bool.or_false,
      Bool.false_or, Bool.false_eq_true, if_false, Option.getD_some, h2, hrearr]
    cases hm1 : O.malloc_iodesc_ok with
    | false =>
      simp only [hm1, Bool.not_false, if_true]
      exact ⟨by trivial, by trivial⟩
    | true =>
      simp only [hm1, Bool.not_true, Bool.false_eq_true, if_false]
      simp only [hm1, Bool.not_true, Bool.false_or] at hfail
      cases hm2 : O.malloc_map_ok with
      | false =>
        simp only [hm2, Bool.not_false, if_true]
        exact ⟨by trivial, by trivial⟩
      | true =>
        simp only [hm2, Bool.not_true, Bool.false_eq_true, if_false]
        simp only [hm2, Bool.not_true, Bool.false_or] at hfail
        cases hns : needssortCheck cmv with
        | true =>
          cases hm3 : O.malloc_tmpsort_ok with
          | false =>
            simp only [hns, hm3, Bool.not_false, Bool.true_and, if_true]
            exact ⟨by trivial, by trivial⟩
          | true =>
            simp only [hns, hm3, Bool.not_true, Bool.and_false, Bool.true_and,
              Bool.false_eq_true, if_false, Bool.false_or]
            simp only [hns, hm3, Bool.not_true, Bool.true_and,
              Bool.false_or] at hfail
            cases hm4 : O.malloc_remap_ok with
            | false =>
              simp only [hm4, Bool.not_false, Bool.and_true, if_true]
              exact ⟨by trivial, by trivial⟩
            | true =>
              simp only [hm4, Bool.not_true, Bool.and_false,
                Bool.false_eq_true, if_false]
              simp only [hm4, Bool.not_true, Bool.false_or] at hfail
              cases hm5 : O.malloc_dimlen_ok with
              | false =>
                simp only [hm5, Bool.not_false, if_true]
                exact ⟨by trivial, by trivial⟩
              | true =>
                simp only [hm5, Bool.not_true, Bool.false_eq_true, if_false]
                simp only [hm5, Bool.not_true, Bool.false_or] at hfail
                simp only [Bool.and_eq_true, decide_eq_true_eq,
                  Bool.not_eq_true'] at hfail
                obtain ⟨⟨hsub, hcomp⟩, htmp⟩ := hfail
                unfold PIOc_InitDecomp_rearr
                rw [if_pos hsub]
                simp only [hcomp, htmp, Bool.not_false, Bool.true_and, if_true]
                exact ⟨by trivial, by trivial⟩
        | false =>
          simp only [hns, Bool.false_and, Bool.false_eq_true, if_false]
          simp only [hns, Bool.false_and, Bool.false_or] at hfail
          cases hm5 : O.malloc_dimlen_ok with
          | false =>
            simp only [hm5, Bool.not_false, if_true]
            exact ⟨by trivial, by trivial⟩
          | true =>
            simp only [hm5, Bool.not_true, Bool.false_eq_true, if_false]
            simp only [hm5, Bool.not_true, Bool.false_or] at hfail
            simp only [Bool.and_eq_true, decide_eq_true_eq,
              Bool.not_eq_true'] at hfail
            obtain ⟨⟨hsub, hcomp⟩, htmp⟩ := hfail
            unfold PIOc_InitDecomp_rearr
            rw [if_pos hsub]
            simp only [hcomp, htmp, Bool.not_false, Bool.true_and, if_true]
            exact ⟨by trivial, by trivial⟩

/-- C3 witness: a NULL `gdimlen` makes `PIOc_InitDecomp` return
`PIO_EINVAL` and register nothing. -/
theorem initDecomp_error_contract_witness :
    (PIOc_InitDecomp (some iosEx) none (some [1]) true none none none
      oracleEx 512).ret = PIO_EINVAL ∧
    (PIOc_InitDecomp (some iosEx) none (some [1]) true none none none
      oracleEx 512).registered = none :=
  initDecomp_error_contract.1 iosEx none (some [1]) true none none none
    oracleEx 512 (Or.inl rfl)

end PIO

namespace PIO

/-- Closed form of the id sequence: starting from counter `c`, the k-th
assigned id is `c + k`. -/
lemma ioidSeq_eq (c : Int) (n : Nat) :
    ioidSeq c n = (List.range n).map (fun k : Nat => c + (k : Int)) := by
  induction n generalizing c with
  | zero => rfl
  | succ m ih =>
    rw [ioidSeq, List.range_succ_eq_map, List.map_cons, List.map_map]
    simp only [assign_ioid]
    congr 1
    · simp
    · rw [ih (c + 1)]
      apply List.map_congr_left
      intro k _
      simp only [Function.comp_apply]
      push_cast
      ring

/-- C4: successive successful `PIOc_InitDecomp` calls assign ids
`512, 513, 514, ...` — monotonically increasing from the base
`pio_next_ioid = 512` — and in async mode the id assigned by one call is
identical on every rank of the iosystem, because each rank first
receives `pio_next_ioid` from the io root and assigns that value. -/
theorem ioid_assignment_contract :
    (∀ n : Nat, ioidSeq pio_next_ioid_init n =
        (List.range n).map (fun k : Nat => 512 + (k : Int))) ∧
    (∀ n : Nat, List.Sorted (· < ·) (ioidSeq pio_next_ioid_init n)) ∧
    (∀ (counters : List Int) (root : Nat),
      ∀ x ∈ (asyncAssignIoids counters root).1, x = counters.getD root 0) := by
  refine ⟨fun n => ioidSeq_eq pio_next_ioid_init n, fun n => ?_, ?_⟩
  · rw [ioidSeq_eq]
    exact List.Pairwise.map _ (fun a b h => by omega) (List.pairwise_lt_range _)
  · intro counters root x hx
    unfold asyncAssignIoids at hx
    simp only [List.mem_map] at hx
    obtain ⟨y, _, rfl⟩ := hx
    rfl

/-- C4 witness: on a two-rank async iosystem whose counters drifted to
`[512, 600]` with io root rank 0, the id assigned on rank 1 equals the
root value 512. -/
theorem ioid_assignment_contract_witness :
    (asyncAssignIoids [512, 600] 0).1.getD 1 0 = ([512, 600] : List Int).getD 0 0 :=
  ioid_assignment_contract.2.2 [512, 600] 0
    ((asyncAssignIoids [512, 600] 0).1.getD 1 0) (by decide)

/-- C5 (amended): `PIOc_Init_Intracomm` rejects a NULL `iosysidp`,
`num_iotasks < 1` and `num_iotasks * stride > num_comptasks` with
`PIO_EINVAL`, but performs no check of `stride ≤ 0`; when the check
passes, io rank `i` is `(base + i * stride) % num_comptasks` with C
truncated `%`. -/
theorem init_intracomm_contract :
    (∀ (nct nio st b : Int) (p : Bool),
      (p = false ∨ nio < 1 ∨ nio * st > nct) →
      PIOc_Init_Intracomm nct nio st b p = .error PIO_EINVAL) ∧
    (∀ (nct nio st b : Int) (p : Bool),
      p = true → 1 ≤ nio → nio * st ≤ nct →
      PIOc_Init_Intracomm nct nio st b p =
        .ok ((List.range nio.toNat).map
          (fun i : Nat => (b + (i : Int) * st).tmod nct))) := by
  constructor
  · intro nct nio st b p h
    unfold PIOc_Init_Intracomm
    rw [if_pos h]
  · intro nct nio st b p hp h1 h2
    unfold PIOc_Init_Intracomm
    rw [if_neg]
    push_neg
    exact ⟨by simp [hp], by omega, by omega⟩

/-- C5 witness: two io tasks with stride 2 on four computation tasks
yield io ranks `[0, 2]`. -/
theorem init_intracomm_contract_witness :
    PIOc_Init_Intracomm 4 2 2 0 true = .ok [0, 2] := by
  have h := init_intracomm_contract.2 4 2 2 0 true rfl (by decide) (by decide)
  rw [h]
  decide

/-- C5 counterexample: `stride = 0` passes the validation (`1 * 0 > 2` is
false), so the call succeeds instead of returning `PIO_EINVAL`, assigning
the same io rank `base % num_comptasks` to every io task. -/
theorem init_intracomm_stride_cex :
    PIOc_Init_Intracomm 2 1 0 0 true = .ok [0] ∧
    PIOc_Init_Intracomm 2 1 0 0 true ≠ .error PIO_EINVAL := by
  refine ⟨by decide, by decide⟩

/-- C7 (amended): for a registered decomposition the call returns
`ndof`; for an unknown decomposition id it aborts the program through
`piodie` instead of failing with `PIO_EBADID`. -/
theorem get_local_array_size_ndof (d : io_desc) :
    PIOc_get_local_array_size (some d) = SizeOutcome.ret d.ndof := rfl

/-- C7 counterexample: an unknown decomposition id makes
`PIOc_get_local_array_size` call `piodie` (abort); it does not return
`PIO_EBADID` — indeed its return value is the size itself and has no
error channel. -/
theorem get_local_array_size_badid_cex :
    PIOc_get_local_array_size none = SizeOutcome.die ∧
    PIOc_get_local_array_size none ≠ SizeOutcome.ret PIO_EBADID := by
  refine ⟨rfl, by decide⟩

/-- C9: the error handler is selectable per iosystem and globally:
exactly `PIO_INTERNAL_ERROR`, `PIO_BCAST_ERROR` and `PIO_RETURN_ERROR`
are accepted and anything else yields `PIO_EINVAL` with no state change;
on success the previous handler is stored through `old_method` when
non-NULL and the new one is installed — the library default when
`iosysid = PIO_DEFAULT`, the iosystem handler otherwise; and the library
default handler is initially `PIO_INTERNAL_ERROR`. -/
theorem set_error_handling_contract :
    default_error_handler_init = PIO_INTERNAL_ERROR ∧
    (∀ (dh : Int) (ios_l : Option iosystem_desc) (iosysid method : Int)
       (old : Bool),
      (iosysid = PIO_DEFAULT ∨ ios_l ≠ none) →
      method ≠ PIO_INTERNAL_ERROR → method ≠ PIO_BCAST_ERROR →
      method ≠ PIO_RETURN_ERROR →
      PIOc_set_iosystem_error_handling dh ios_l iosysid method old =
        ⟨PIO_EINVAL, dh, ios_l, none⟩) ∧
    (∀ (dh : Int) (ios_l : Option iosystem_desc) (method : Int) (old : Bool),
      (method = PIO_INTERNAL_ERROR ∨ method = PIO_BCAST_ERROR ∨
        method = PIO_RETURN_ERROR) →
      PIOc_set_iosystem_error_handling dh ios_l PIO_DEFAULT method old =
        ⟨PIO_NOERR, method, ios_l, if old then some dh else none⟩) ∧
    (∀ (dh : Int) (ios : iosystem_desc) (iosysid method : Int) (old : Bool),
      iosysid ≠ PIO_DEFAULT →
      (method = PIO_INTERNAL_ERROR ∨ method = PIO_BCAST_ERROR ∨
        method = PIO_RETURN_ERROR) →
      PIOc_set_iosystem_error_handling dh (some ios) iosysid method old =
        ⟨PIO_NOERR, dh, some { ios with error_handler := method },
          if old then some ios.error_handler else none⟩) := by
  refine ⟨rfl, ?_, ?_, ?_⟩
  · intro dh ios_l iosysid method old hfound hm1 hm2 hm3
    unfold PIOc_set_iosystem_error_handling
    rw [if_neg, if_pos ⟨hm1, hm2, hm3⟩]
    rcases hfound with h | h
    · simp [h]
    · rintro ⟨_, hn⟩
      exact h hn
  · intro dh ios_l method old hval
    unfold PIOc_set_iosystem_error_handling
    rw [if_neg (by simp), if_neg (by rcases hval with h | h | h <;> simp [h]),
      if_pos rfl]
    simp
  · intro dh ios iosysid method old hne hval
    unfold PIOc_set_iosystem_error_handling
    rw [if_neg (by simp), if_neg (by rcases hval with h | h | h <;> simp [h]),
      if_neg hne]
    simp [hne]

/-- C9 witness: installing `PIO_RETURN_ERROR` as the library default
returns the previous default through `old_method`. -/
theorem set_error_handling_contract_witness :
    PIOc_set_iosystem_error_handling PIO_INTERNAL_ERROR none PIO_DEFAULT
      PIO_RETURN_ERROR true =
      ⟨PIO_NOERR, PIO_RETURN_ERROR, none, some PIO_INTERNAL_ERROR⟩ := by
  have h := set_error_handling_contract.2.2.1 PIO_INTERNAL_ERROR none
    PIO_RETURN_ERROR true (Or.inr (Or.inr rfl))
  rw [h]
  simp

/-- C10: `PIOc_iosystem_is_active` returns `PIO_NOERR` for every
iosysid: an unknown id is reported by writing `false` through `active`
rather than by an error code, and a NULL `active` pointer is ignored. -/
theorem iosystem_is_active_contract :
    (∀ (l : Option iosystem_desc) (ap : Bool),
      (PIOc_iosystem_is_active l ap).1 = PIO_NOERR) ∧
    (∀ ap : Bool, PIOc_iosystem_is_active none ap =
      (PIO_NOERR, if ap then some false else none)) ∧
    (∀ l : Option iosystem_desc, (PIOc_iosystem_is_active l false).2 = none) := by
  refine ⟨fun l ap => rfl, fun ap => ?_, fun l => rfl⟩
  cases ap <;> rfl

end PIO
